import Mathlib

/-!
Shallow embedding of the EventBus core (`eventbus.hpp`): the type-erased
callback wrapper with its runtime matching/conversion algorithm, and the
event registry with its subscribe/unsubscribe/publish/query operations.

Machine types are modelled with `Nat`/`Int`/`String`; the `std::any`
argument bundle published by `publish` is a list of type-tagged values
(`Val`), which always carries the decayed runtime type of each argument,
exactly as `std::make_tuple(std::decay_t<Args>(args)...)` does.  A
subscriber's callback is modelled by its observable behaviour: the
wrapper records the ordered list of declared parameter types and a
predicate saying on which argument lists the callback throws.  Invoking
a callback is recorded as an event `(id, args)`; C++ exceptions are
modelled with `Except Unit`.
-/

namespace eventbus

/-- Runtime type tags for callback parameter declarations and published
values.  `ref`/`constRef` model `T&` / `const T&` parameter declarations;
published (decayed) values never carry a reference tag. -/
inductive Ty : Type where
  | tInt : Ty
  | tBool : Ty
  | tString : Ty
  | tCharPtr : Ty
  | ref : Ty → Ty
  | constRef : Ty → Ty
deriving DecidableEq, Repr

/-- A decayed runtime value carried in a published argument bundle.
`vCStr` is a `const char*` raw text literal, `vStr` an owned
`std::string`. -/
inductive Val : Type where
  | vInt : Int → Val
  | vBool : Bool → Val
  | vStr : String → Val
  | vCStr : String → Val
deriving DecidableEq, Repr

/-- The runtime type tag stored for a decayed value. -/
def Val.ty : Val → Ty
  | .vInt _ => .tInt
  | .vBool _ => .tBool
  | .vStr _ => .tString
  | .vCStr _ => .tCharPtr

/-- `std::decay_t`: strips reference qualifiers from a declared type. -/
def Ty.decay : Ty → Ty
  | .ref t => t
  | .constRef t => t
  | t => t

/-- `CallbackWrapper::map_to_source_type`: the admissible source type for
a declared parameter type in the smart-conversion path.  `std::string`
and `const std::string&` map to `const char*`; `const T&` and `T&` map
to `T`; every other declared type maps to its decayed self. -/
def map_to_source_type : Ty → Ty
  | .tString => .tCharPtr
  | .constRef .tString => .tCharPtr
  | .constRef t => t
  | .ref t => t
  | t => t.decay

/-- `std::is_convertible_v` restricted to the modelled value types
(identity conversions are handled before this check in
`convert_parameter`). -/
def is_convertible : Ty → Ty → Bool
  | .tCharPtr, .tString => true
  | .tInt, .tBool => true
  | .tBool, .tInt => true
  | .tInt, .tInt => true
  | .tBool, .tBool => true
  | .tString, .tString => true
  | .tCharPtr, .tCharPtr => true
  | _, _ => false

/-- Value-initialisation `DecayedTarget{}` for the modelled types. -/
def defaultVal : Ty → Val
  | .tInt => .vInt 0
  | .tBool => .vBool false
  | .tString => .vStr ""
  | .tCharPtr => .vCStr ""
  | .ref t => defaultVal t
  | .constRef t => defaultVal t

/-- `static_cast<DecayedTarget>(source)` for the conversions
`is_convertible` admits. -/
def static_cast (target : Ty) (v : Val) : Val :=
  match target, v with
  | .tString, .vCStr s => .vStr s
  | .tBool, .vInt n => .vBool (n ≠ 0)
  | .tInt, .vBool b => .vInt (if b then 1 else 0)
  | _, _ => v

/-- `CallbackWrapper::convert_parameter`: converts one source value to
the declared target parameter type.  Branch order follows the source:
exact decayed identity, then `const char*`-to-`std::string`
construction, then `static_cast` when convertible, else
value-initialisation. -/
def convert_parameter (target : Ty) (v : Val) : Val :=
  if target.decay = v.ty then v
  else if target.decay = .tString ∧ v.ty = .tCharPtr then
    match v with
    | .vCStr s => .vStr s
    | w => w
  else if is_convertible v.ty target.decay then static_cast target.decay v
  else defaultVal target.decay

/-- One type-erased subscription: the id, the declared parameter types of
the wrapped callback, and the callback's observable behaviour — `raises
args` holds when the callback throws on being invoked with `args`. -/
structure CallbackWrapper : Type where
  id : Nat
  declared : List Ty
  raises : List Val → Bool

/-- A recorded callback invocation: the wrapper's id and the argument
values passed to the callback. -/
abbrev Call : Type := Nat × List Val

/-- Calling the wrapped `std::function`: the invocation is recorded, and
the call throws exactly when the callback's behaviour says so. -/
def invokeCallback (w : CallbackWrapper) (args : List Val) :
    List Call × Except Unit Unit :=
  ([(w.id, args)], if w.raises args then .error () else .ok ())

/-- `CallbackWrapper::try_parameter_conversion`: the smart-conversion
step.  If the bundle's stored types equal the per-parameter admissible
source types, each argument is converted and the callback invoked; a
throw during that invocation is caught by the step's own handler and
reported as `false`. -/
def try_parameter_conversion (w : CallbackWrapper) (b : List Val) :
    List Call × Except Unit Bool :=
  if b.map Val.ty = w.declared.map map_to_source_type then
    let args := List.zipWith convert_parameter w.declared b
    let r := invokeCallback w args
    (r.1, .ok (match r.2 with | .ok _ => true | .error _ => false))
  else ([], .ok false)

/-- The body of `CallbackWrapper::try_invoke` inside its `try` block: a
zero-parameter wrapper invokes unconditionally; otherwise exact match on
the declared tuple type, then on the decayed tuple type, then the
smart-conversion step.  A throw out of the callback on the first three
paths escapes this body (to be caught by `try_invoke`'s handler). -/
def try_invoke_body (w : CallbackWrapper) (b : List Val) :
    List Call × Except Unit Bool :=
  if w.declared = [] then
    let r := invokeCallback w []
    (r.1, r.2.map fun _ => true)
  else if b.map Val.ty = w.declared then
    let r := invokeCallback w b
    (r.1, r.2.map fun _ => true)
  else if b.map Val.ty = w.declared.map Ty.decay then
    let r := invokeCallback w b
    (r.1, r.2.map fun _ => true)
  else try_parameter_conversion w b

/-- The `catch (...)` handler closing `try_invoke`: any escaping
exception is swallowed and the call reports `false`. -/
def catchAll (r : List Call × Except Unit Bool) : List Call × Bool :=
  (r.1, match r.2 with | .ok v => v | .error _ => false)

/-- `CallbackWrapper::try_invoke`: total; returns the recorded
invocations and whether the call reported success. -/
def try_invoke (w : CallbackWrapper) (b : List Val) : List Call × Bool :=
  catchAll (try_invoke_body w b)

/-- `try_invoke` as its caller observes it: the internal `catch (...)`
means the caller always receives an ordinary `bool` return, never an
exception. -/
def try_invokeE (w : CallbackWrapper) (b : List Val) :
    List Call × Except Unit Bool :=
  ((try_invoke w b).1, .ok (try_invoke w b).2)

/-- The registry map `callbacks_map_`, as an association list of event
name to insertion-ordered subscriptions (list order stands in for one
fixed iteration order of the `unordered_map`). -/
abbrev CallbacksMap : Type := List (String × List CallbackWrapper)

/-- The EventBus state: the atomic id counter `next_id_` and the
registry map. -/
structure EventBus : Type where
  next_id : Nat
  callbacks_map : CallbacksMap

/-- A freshly constructed `EventBus`. -/
def EventBus.empty : EventBus := ⟨0, []⟩

/-- `callbacks_map_.find(eventName)`: the subscription list of an event,
if an entry for it exists. -/
def findEvent : CallbacksMap → String → Option (List CallbackWrapper)
  | [], _ => none
  | (k, ws) :: rest, e => if k = e then some ws else findEvent rest e

/-- `callbacks_map_[eventName].push_back(wrapper)`: appends to the named
entry's list, default-constructing a fresh entry when absent. -/
def insertCb (m : CallbacksMap) (e : String) (w : CallbackWrapper) :
    CallbacksMap :=
  match m with
  | [] => [(e, [w])]
  | (k, ws) :: rest =>
      if k = e then (k, ws ++ [w]) :: rest else (k, ws) :: insertCb rest e w

/-- `EventBus::subscribe`: draws the fresh id `++next_id_` and appends a
new wrapper for the callback (given by its declared parameter types and
throw behaviour) to the event's entry.  Returns the id and the new
state. -/
def subscribe (bus : EventBus) (e : String) (declared : List Ty)
    (raises : List Val → Bool) : Nat × EventBus :=
  let id := bus.next_id + 1
  (id, ⟨id, insertCb bus.callbacks_map e ⟨id, declared, raises⟩⟩)

/-- `std::find_if` + `erase` on one entry's list: removes the first
wrapper with the given id, or reports that none matched. -/
def removeFirstId : List CallbackWrapper → Nat →
    Option (List CallbackWrapper)
  | [], _ => none
  | w :: rest, id =>
      if w.id = id then some rest
      else (removeFirstId rest id).map (fun ws => w :: ws)

/-- `EventBus::unsubscribe` acting on the map: finds the event's entry,
erases the first wrapper matching the id, and keeps the entry even when
it becomes empty; reports whether a wrapper was erased. -/
def unsubMap : CallbacksMap → String → Nat → Bool × CallbacksMap
  | [], _, _ => (false, [])
  | (k, ws) :: rest, e, id =>
      if k = e then
        match removeFirstId ws id with
        | none => (false, (k, ws) :: rest)
        | some ws' => (true, (k, ws') :: rest)
      else
        let r := unsubMap rest e id
        (r.1, (k, ws) :: r.2)

/-- `EventBus::unsubscribe`. -/
def unsubscribe (bus : EventBus) (e : String) (id : Nat) :
    Bool × EventBus :=
  let r := unsubMap bus.callbacks_map e id
  (r.1, ⟨bus.next_id, r.2⟩)

/-- `EventBus::unsubscribe_all` acting on the map: erases the whole
entry and returns how many subscriptions it held. -/
def unsubAllMap : CallbacksMap → String → Nat × CallbacksMap
  | [], _ => (0, [])
  | (k, ws) :: rest, e =>
      if k = e then (ws.length, rest)
      else
        let r := unsubAllMap rest e
        (r.1, (k, ws) :: r.2)

/-- `EventBus::unsubscribe_all`. -/
def unsubscribe_all (bus : EventBus) (e : String) : Nat × EventBus :=
  let r := unsubAllMap bus.callbacks_map e
  (r.1, ⟨bus.next_id, r.2⟩)

/-- `EventBus::clear`. -/
def clear (bus : EventBus) : EventBus := ⟨bus.next_id, []⟩

/-- `EventBus::isEventRegistered`: the entry exists and is non-empty. -/
def isEventRegistered (bus : EventBus) (e : String) : Bool :=
  match findEvent bus.callbacks_map e with
  | none => false
  | some ws => !ws.isEmpty

/-- `EventBus::getCallbackCount`: the entry's size, or 0 when absent. -/
def getCallbackCount (bus : EventBus) (e : String) : Nat :=
  match findEvent bus.callbacks_map e with
  | none => 0
  | some ws => ws.length

/-- `EventBus::getAllEventNames`: the names of the non-empty entries, in
iteration order. -/
def getAllEventNames (bus : EventBus) : List String :=
  (bus.callbacks_map.filter fun p => !p.2.isEmpty).map fun p => p.1

/-- The `EventBusStats` snapshot struct. -/
structure EventBusStats : Type where
  total_events : Nat
  total_callbacks : Nat
  max_callbacks_per_event : Nat
  most_subscribed_event : String
deriving DecidableEq, Repr

/-- The loop body of `EventBus::getStats` for one map entry. -/
def statsStep (acc : EventBusStats) (p : String × List CallbackWrapper) :
    EventBusStats :=
  if p.2.isEmpty then acc
  else
    { total_events := acc.total_events + 1
      total_callbacks := acc.total_callbacks + p.2.length
      max_callbacks_per_event :=
        if p.2.length > acc.max_callbacks_per_event then p.2.length
        else acc.max_callbacks_per_event
      most_subscribed_event :=
        if p.2.length > acc.max_callbacks_per_event then p.1
        else acc.most_subscribed_event }

/-- `EventBus::getStats`: one full scan of the registry map. -/
def getStats (bus : EventBus) : EventBusStats :=
  bus.callbacks_map.foldl statsStep ⟨0, 0, 0, ""⟩

/-- What one `publish` call produces: the callback invocations it made,
in order, and the subscriber ids logged by the dispatch loop's
`catch (const std::exception&)` handler. -/
structure PublishOut : Type where
  calls : List Call
  log : List Nat
deriving DecidableEq, Repr

/-- The dispatch loop of `EventBus::publish`: each wrapper's
`try_invoke` result is observed through `try_invokeE`; a `bool` return
continues the loop, and an escaping exception would be logged with the
wrapper's id. -/
def publishLoop (b : List Val) : List CallbackWrapper → PublishOut
  | [] => ⟨[], []⟩
  | w :: rest =>
      let step := try_invokeE w b
      let here : PublishOut :=
        match step.2 with
        | .ok _ => ⟨step.1, []⟩
        | .error _ => ⟨step.1, [w.id]⟩
      let r := publishLoop b rest
      ⟨here.calls ++ r.calls, here.log ++ r.log⟩

/-- `EventBus::publish`: returns immediately when the event is unknown
or its entry is empty, otherwise packages the (already decayed)
arguments into one bundle and runs the dispatch loop. -/
def publish (bus : EventBus) (e : String) (args : List Val) :
    PublishOut :=
  match findEvent bus.callbacks_map e with
  | none => ⟨[], []⟩
  | some ws => if ws.isEmpty then ⟨[], []⟩ else publishLoop args ws

/-- `EventBus::publish_if_min_subscribers`: checks that the event's
entry exists and holds at least `min_subscribers` subscriptions; only
then performs the full `publish` and returns true. -/
def publish_if_min_subscribers (bus : EventBus) (e : String)
    (min_subscribers : Nat) (args : List Val) : Bool × PublishOut :=
  match findEvent bus.callbacks_map e with
  | none => (false, ⟨[], []⟩)
  | some ws =>
      if ws.length < min_subscribers then (false, ⟨[], []⟩)
      else (true, publish bus e args)

/-- One call on the public API of an `EventBus` instance. -/
inductive Op : Type where
  | subscribe (e : String) (declared : List Ty) (raises : List Val → Bool)
  | unsubscribe (e : String) (id : Nat)
  | unsubscribeAll (e : String)
  | clear
  | publish (e : String) (args : List Val)
  | publishIfMin (e : String) (m : Nat) (args : List Val)
  | isRegistered (e : String)
  | callbackCount (e : String)
  | allEventNames
  | getStats

/-- The registry state after one API call.  The query and dispatch
operations (`publish`, `publish_if_min_subscribers`,
`isEventRegistered`, `getCallbackCount`, `getAllEventNames`,
`getStats`) read the state and leave it as it was; only the four
mutators change it. -/
def applyOp (bus : EventBus) : Op → EventBus
  | .subscribe e d r => (subscribe bus e d r).2
  | .unsubscribe e id => (unsubscribe bus e id).2
  | .unsubscribeAll e => (unsubscribe_all bus e).2
  | .clear => clear bus
  | .publish _ _ => bus
  | .publishIfMin _ _ _ => bus
  | .isRegistered _ => bus
  | .callbackCount _ => bus
  | .allEventNames => bus
  | .getStats => bus

/-- Running a call sequence from a state. -/
def runOps (bus : EventBus) : List Op → EventBus
  | [] => bus
  | op :: rest => runOps (applyOp bus op) rest

/-- The id returned by one API call, when the call is a `subscribe`. -/
def opIssued (bus : EventBus) : Op → List Nat
  | .subscribe e d r => [(subscribe bus e d r).1]
  | _ => []

/-- The ids returned by the `subscribe` calls of a call sequence, in
issuance order. -/
def issuedIds (bus : EventBus) : List Op → List Nat
  | [] => []
  | op :: rest => opIssued bus op ++ issuedIds (applyOp bus op) rest

/-- The ids of one entry's subscriptions, in insertion order. -/
def idsOf (ws : List CallbackWrapper) : List Nat := ws.map fun w => w.id

/-- Every subscription id currently stored anywhere in the map. -/
def allIds (m : CallbacksMap) : List Nat :=
  (m.map fun p => idsOf p.2).flatten

/-- Well-formedness of a registry state, maintained by every API call
from a fresh instance: stored ids never exceed the id counter, stored
ids are globally distinct, and map keys are distinct. -/
def WF (bus : EventBus) : Prop :=
  (∀ i ∈ allIds bus.callbacks_map, i ≤ bus.next_id) ∧
  (allIds bus.callbacks_map).Nodup ∧
  (bus.callbacks_map.map fun p => p.1).Nodup

instance (bus : EventBus) : Decidable (WF bus) := by
  unfold WF; infer_instance

/-- A callback that never throws. -/
def quiet : List Val → Bool := fun _ => false

/-- A callback that always throws. -/
def loud : List Val → Bool := fun _ => true

/-- A registry with one subscriber on `"greet"` declared
`(const std::string&)`, as in the repository's `handle_greet`. -/
def busGreet : EventBus :=
  (subscribe EventBus.empty "greet" [.constRef .tString] quiet).2

/-- A registry with 3 subscribers on `"x"` and 1 on `"y"`. -/
def busXY : EventBus :=
  (subscribe (subscribe (subscribe (subscribe EventBus.empty
    "x" [.tInt] quiet).2 "x" [.tInt] quiet).2
    "x" [.tInt] quiet).2 "y" [.tInt] quiet).2

/-- A registry with two `(int)` subscribers on `"e"`, the first of which
throws whenever it is invoked. -/
def busRaise : EventBus :=
  (subscribe (subscribe EventBus.empty "e" [.tInt] loud).2
    "e" [.tInt] quiet).2

/-- A call sequence leaving an empty-but-present entry for `"x"`:
subscribe once, then unsubscribe that id. -/
def opsEmptied : List Op :=
  [.subscribe "x" [.tInt] quiet, .unsubscribe "x" 1]

/-! ### Helper lemmas about the registry map -/

theorem allIds_nil : allIds [] = [] := rfl

theorem allIds_cons (k : String) (ws : List CallbackWrapper)
    (m : CallbacksMap) : allIds ((k, ws) :: m) = idsOf ws ++ allIds m := by
  simp [allIds, idsOf]

theorem idsOf_append (l₁ l₂ : List CallbackWrapper) :
    idsOf (l₁ ++ l₂) = idsOf l₁ ++ idsOf l₂ := by
  simp [idsOf]

theorem allIds_insertCb (m : CallbacksMap) (e : String)
    (w : CallbackWrapper) :
    (allIds (insertCb m e w)).Perm (w.id :: allIds m) := by
  induction m with
  | nil => simp [insertCb, allIds, idsOf]
  | cons p rest ih =>
      obtain ⟨k, ws⟩ := p
      by_cases h : k = e
      · simp only [insertCb, if_pos h, allIds_cons, idsOf_append]
        simp only [idsOf, List.map_cons, List.map_nil, List.append_assoc,
          List.singleton_append]
        exact List.perm_middle
      · simp only [insertCb, if_neg h, allIds_cons]
        exact (List.Perm.append_left _ ih).trans List.perm_middle

theorem keys_insertCb (m : CallbacksMap) (e : String) (w : CallbackWrapper) :
    (insertCb m e w).map (fun p => p.1) =
      (if e ∈ m.map (fun p => p.1) then m.map (fun p => p.1)
       else m.map (fun p => p.1) ++ [e]) := by
  induction m with
  | nil => simp [insertCb]
  | cons p rest ih =>
      obtain ⟨k, ws⟩ := p
      by_cases h : k = e
      · simp [insertCb, if_pos h, h]
      · by_cases h2 : e ∈ rest.map (fun p => p.1)
        · simp [insertCb, if_neg h, ih, h2, Ne.symm h]
        · simp [insertCb, if_neg h, ih, h2, Ne.symm h]

theorem findEvent_mem {m : CallbacksMap} {e : String}
    {ws : List CallbackWrapper} (h : findEvent m e = some ws) :
    (e, ws) ∈ m := by
  induction m with
  | nil => simp [findEvent] at h
  | cons p rest ih =>
      obtain ⟨k, ws₀⟩ := p
      by_cases hk : k = e
      · simp only [findEvent, if_pos hk] at h
        injection h with h
        subst hk; subst h
        exact List.mem_cons_self _ _
      · simp only [findEvent, if_neg hk] at h
        exact List.mem_cons_of_mem _ (ih h)

theorem findEvent_of_mem_nodup {m : CallbacksMap} {e : String}
    {ws : List CallbackWrapper}
    (hnd : (m.map fun p => p.1).Nodup) (h : (e, ws) ∈ m) :
    findEvent m e = some ws := by
  induction m with
  | nil => simp at h
  | cons p rest ih =>
      obtain ⟨k, ws₀⟩ := p
      have hnd' : (∀ x, (k, x) ∉ rest) ∧
          (List.map (fun p => p.1) rest).Nodup := by simpa using hnd
      rcases List.mem_cons.mp h with h1 | h1
      · injection h1 with h1a h1b
        subst h1a; subst h1b
        simp [findEvent]
      · have hk : k ≠ e := by
          intro heq
          subst heq
          exact hnd'.1 ws h1
        simp only [findEvent, if_neg hk]
        exact ih hnd'.2 h1

theorem findEvent_ids_sublist {m : CallbacksMap} {e : String}
    {ws : List CallbackWrapper} (h : findEvent m e = some ws) :
    (idsOf ws).Sublist (allIds m) := by
  induction m with
  | nil => simp [findEvent] at h
  | cons p rest ih =>
      obtain ⟨k, ws₀⟩ := p
      by_cases hk : k = e
      · simp only [findEvent, if_pos hk] at h
        obtain rfl := Option.some.injEq .. ▸ h
        rw [allIds_cons]
        exact List.sublist_append_left _ _
      · simp only [findEvent, if_neg hk] at h
        rw [allIds_cons]
        exact (ih h).trans (List.sublist_append_right _ _)

theorem removeFirstId_eq_none {ws : List CallbackWrapper} {id : Nat} :
    removeFirstId ws id = none ↔ id ∉ idsOf ws := by
  induction ws with
  | nil => simp [removeFirstId, idsOf]
  | cons w rest ih =>
      by_cases h : w.id = id
      · simp [removeFirstId, if_pos h, idsOf, h]
      · simp [removeFirstId, if_neg h, idsOf, Option.map_eq_none', ih,
          Ne.symm h]

theorem removeFirstId_eq_some {ws ws' : List CallbackWrapper} {id : Nat}
    (h : removeFirstId ws id = some ws') :
    ∃ l₁ w l₂, ws = l₁ ++ w :: l₂ ∧ w.id = id ∧ ws' = l₁ ++ l₂ ∧
      id ∉ idsOf l₁ := by
  induction ws generalizing ws' with
  | nil => simp [removeFirstId] at h
  | cons w rest ih =>
      by_cases hw : w.id = id
      · simp only [removeFirstId, if_pos hw] at h
        injection h with h
        exact ⟨[], w, rest, by simp, hw, by simp [h], by simp [idsOf]⟩
      · simp only [removeFirstId, if_neg hw, Option.map_eq_some'] at h
        obtain ⟨t, ht, rfl⟩ := h
        obtain ⟨l₁, u, l₂, hws, hu, ht', hnot⟩ := ih ht
        refine ⟨w :: l₁, u, l₂, by simp [hws], hu, by simp [ht'], ?_⟩
        simp [idsOf] at hnot ⊢
        exact ⟨Ne.symm hw, hnot⟩

theorem removeFirstId_sublist {ws ws' : List CallbackWrapper} {id : Nat}
    (h : removeFirstId ws id = some ws') : ws'.Sublist ws := by
  obtain ⟨l₁, w, l₂, rfl, _, rfl, _⟩ := removeFirstId_eq_some h
  exact List.Sublist.append_left (List.sublist_cons_self _ _) _

theorem unsubMap_of_findEvent_none {m : CallbacksMap} {e : String}
    (h : findEvent m e = none) (id : Nat) : unsubMap m e id = (false, m) := by
  induction m with
  | nil => simp [unsubMap]
  | cons p rest ih =>
      obtain ⟨k, ws⟩ := p
      by_cases hk : k = e
      · simp [findEvent, if_pos hk] at h
      · simp only [findEvent, if_neg hk] at h
        simp [unsubMap, if_neg hk, ih h]

theorem unsubMap_of_remove_none {m : CallbacksMap} {e : String}
    {ws : List CallbackWrapper} {id : Nat}
    (hf : findEvent m e = some ws) (hr : removeFirstId ws id = none) :
    unsubMap m e id = (false, m) := by
  induction m with
  | nil => simp [findEvent] at hf
  | cons p rest ih =>
      obtain ⟨k, ws₀⟩ := p
      by_cases hk : k = e
      · simp only [findEvent, if_pos hk] at hf
        injection hf with hf
        subst hf
        simp [unsubMap, if_pos hk, hr]
      · simp only [findEvent, if_neg hk] at hf
        simp [unsubMap, if_neg hk, ih hf]

theorem unsubMap_of_remove_some {m : CallbacksMap} {e : String}
    {ws ws' : List CallbackWrapper} {id : Nat}
    (hf : findEvent m e = some ws) (hr : removeFirstId ws id = some ws') :
    (unsubMap m e id).1 = true ∧
    findEvent (unsubMap m e id).2 e = some ws' ∧
    (∀ e', e' ≠ e → findEvent (unsubMap m e id).2 e' = findEvent m e') ∧
    (unsubMap m e id).2.map (fun p => p.1) = m.map (fun p => p.1) := by
  induction m with
  | nil => simp [findEvent] at hf
  | cons p rest ih =>
      obtain ⟨k, ws₀⟩ := p
      by_cases hk : k = e
      · simp only [findEvent, if_pos hk] at hf
        injection hf with hf
        subst hf
        refine ⟨by simp [unsubMap, if_pos hk, hr], ?_, ?_, ?_⟩
        · simp [unsubMap, if_pos hk, hr, findEvent]
        · intro e' he'
          subst hk
          simp [unsubMap, hr, findEvent, Ne.symm he']
        · simp [unsubMap, if_pos hk, hr]
      · simp only [findEvent, if_neg hk] at hf
        obtain ⟨ih1, ih2, ih3, ih4⟩ := ih hf
        refine ⟨by simp [unsubMap, if_neg hk, ih1], ?_, ?_, ?_⟩
        · simp [unsubMap, if_neg hk, findEvent, ih2]
        · intro e' he'
          by_cases hke' : k = e'
          · simp [unsubMap, if_neg hk, findEvent, hke', he']
          · simp [unsubMap, if_neg hk, findEvent, hke', ih3 e' he']
        · simp [unsubMap, if_neg hk, ih4]

theorem allIds_unsubMap (m : CallbacksMap) (e : String) (id : Nat) :
    (allIds (unsubMap m e id).2).Sublist (allIds m) := by
  induction m with
  | nil => simp [unsubMap]
  | cons p rest ih =>
      obtain ⟨k, ws⟩ := p
      by_cases hk : k = e
      · cases hr : removeFirstId ws id with
        | none => simp [unsubMap, if_pos hk, hr]
        | some ws' =>
            simp only [unsubMap, if_pos hk, hr, allIds_cons]
            exact List.Sublist.append
              (List.Sublist.map _ (removeFirstId_sublist hr))
              (List.Sublist.refl _)
      · simp only [unsubMap, if_neg hk, allIds_cons]
        exact List.Sublist.append (List.Sublist.refl _) ih

theorem keys_unsubMap (m : CallbacksMap) (e : String) (id : Nat) :
    (unsubMap m e id).2.map (fun p => p.1) = m.map (fun p => p.1) := by
  induction m with
  | nil => simp [unsubMap]
  | cons p rest ih =>
      obtain ⟨k, ws⟩ := p
      by_cases hk : k = e
      · cases hr : removeFirstId ws id with
        | none => simp [unsubMap, if_pos hk, hr]
        | some ws' => simp [unsubMap, if_pos hk, hr]
      · simp [unsubMap, if_neg hk, ih]

theorem allIds_unsubAllMap (m : CallbacksMap) (e : String) :
    (allIds (unsubAllMap m e).2).Sublist (allIds m) := by
  induction m with
  | nil => simp [unsubAllMap]
  | cons p rest ih =>
      obtain ⟨k, ws⟩ := p
      by_cases hk : k = e
      · simp only [unsubAllMap, if_pos hk, allIds_cons]
        exact List.sublist_append_right _ _
      · simp only [unsubAllMap, if_neg hk, allIds_cons]
        exact List.Sublist.append (List.Sublist.refl _) ih

theorem keys_unsubAllMap (m : CallbacksMap) (e : String) :
    ((unsubAllMap m e).2.map fun p => p.1).Sublist (m.map fun p => p.1) := by
  induction m with
  | nil => simp [unsubAllMap]
  | cons p rest ih =>
      obtain ⟨k, ws⟩ := p
      by_cases hk : k = e
      · simp only [unsubAllMap, if_pos hk, List.map_cons]
        exact (List.Sublist.refl _).trans (List.sublist_cons_self _ _)
      · simp only [unsubAllMap, if_neg hk, List.map_cons]
        exact List.Sublist.cons₂ _ ih

/-! ### The well-formedness invariant is maintained by every API call -/

theorem subscribe_fst (bus : EventBus) (e : String) (d : List Ty)
    (r : List Val → Bool) : (subscribe bus e d r).1 = bus.next_id + 1 := rfl

theorem subscribe_snd_next_id (bus : EventBus) (e : String) (d : List Ty)
    (r : List Val → Bool) :
    (subscribe bus e d r).2.next_id = bus.next_id + 1 := rfl

theorem subscribe_snd_map (bus : EventBus) (e : String) (d : List Ty)
    (r : List Val → Bool) :
    (subscribe bus e d r).2.callbacks_map =
      insertCb bus.callbacks_map e ⟨bus.next_id + 1, d, r⟩ := rfl

theorem WF_empty : WF EventBus.empty := by
  refine ⟨?_, ?_, ?_⟩ <;> simp [EventBus.empty, allIds]

theorem WF_applyOp (bus : EventBus) (op : Op) (h : WF bus) :
    WF (applyOp bus op) := by
  obtain ⟨hb, hnd, hks⟩ := h
  cases op with
  | subscribe e d r =>
      have hperm := allIds_insertCb bus.callbacks_map e
        ⟨bus.next_id + 1, d, r⟩
      refine ⟨?_, ?_, ?_⟩
      · intro i hi
        have := hperm.mem_iff.mp hi
        simp only [List.mem_cons] at this
        rcases this with rfl | hmem
        · exact Nat.le.refl
        · simp only [applyOp, subscribe_snd_next_id]
          exact Nat.le_succ_of_le (hb i hmem)
      · refine hperm.symm.nodup (List.nodup_cons.mpr ⟨?_, hnd⟩)
        intro hmem
        have h1 : bus.next_id + 1 ≤ bus.next_id := hb _ hmem
        omega
      · simp only [applyOp, subscribe]
        rw [keys_insertCb]
        split
        · exact hks
        · next hne =>
            rw [List.nodup_append]
            exact ⟨hks, List.nodup_singleton _, by
              intro a ha hae
              simp only [List.mem_singleton] at hae
              exact hne (hae ▸ ha)⟩
  | unsubscribe e id =>
      refine ⟨?_, ?_, ?_⟩
      · intro i hi
        exact hb i ((allIds_unsubMap bus.callbacks_map e id).subset hi)
      · exact (allIds_unsubMap bus.callbacks_map e id).nodup hnd
      · simp only [applyOp, unsubscribe]
        rw [keys_unsubMap]
        exact hks
  | unsubscribeAll e =>
      refine ⟨?_, ?_, ?_⟩
      · intro i hi
        exact hb i ((allIds_unsubAllMap bus.callbacks_map e).subset hi)
      · exact (allIds_unsubAllMap bus.callbacks_map e).nodup hnd
      · exact (keys_unsubAllMap bus.callbacks_map e).nodup hks
  | clear => refine ⟨?_, ?_, ?_⟩ <;> simp [applyOp, clear, allIds]
  | publish e args => exact ⟨hb, hnd, hks⟩
  | publishIfMin e m args => exact ⟨hb, hnd, hks⟩
  | isRegistered e => exact ⟨hb, hnd, hks⟩
  | callbackCount e => exact ⟨hb, hnd, hks⟩
  | allEventNames => exact ⟨hb, hnd, hks⟩
  | getStats => exact ⟨hb, hnd, hks⟩

theorem WF_runOps (ops : List Op) : ∀ bus : EventBus, WF bus →
    WF (runOps bus ops) := by
  induction ops with
  | nil => intro bus h; exact h
  | cons op rest ih =>
      intro bus h
      exact ih _ (WF_applyOp bus op h)

theorem WF_reachable (ops : List Op) : WF (runOps EventBus.empty ops) :=
  WF_runOps ops _ WF_empty

/-! ### Monotonicity of the id counter -/

theorem applyOp_next_id_le (bus : EventBus) (op : Op) :
    bus.next_id ≤ (applyOp bus op).next_id := by
  cases op <;>
    simp [applyOp, subscribe_snd_next_id, unsubscribe, unsubscribe_all, clear]

theorem issuedIds_lower (ops : List Op) :
    ∀ (bus : EventBus) (i : Nat), i ∈ issuedIds bus ops →
      bus.next_id < i := by
  induction ops with
  | nil => intro bus i hi; simp [issuedIds] at hi
  | cons op rest ih =>
      intro bus i hi
      rw [issuedIds, List.mem_append] at hi
      rcases hi with hi | hi
      · cases op <;> simp only [opIssued, subscribe_fst,
          List.mem_singleton, List.not_mem_nil] at hi
        · omega
      · have h1 := ih _ _ hi
        have h2 := applyOp_next_id_le bus op
        omega

/-! ### Dispatch-loop lemmas -/

theorem try_invokeE_isOk (w : CallbackWrapper) (b : List Val) :
    (try_invokeE w b).2 = .ok (try_invoke w b).2 := rfl

theorem try_invoke_calls (w : CallbackWrapper) (b : List Val) :
    (try_invoke w b).1 = (try_invoke_body w b).1 := by
  simp [try_invoke, catchAll]

theorem publishLoop_log (b : List Val) (ws : List CallbackWrapper) :
    (publishLoop b ws).log = [] := by
  induction ws with
  | nil => rfl
  | cons w rest ih => simp [publishLoop, try_invokeE, ih]

theorem publishLoop_calls (b : List Val) (ws : List CallbackWrapper) :
    (publishLoop b ws).calls =
      (ws.map fun w => (try_invoke w b).1).flatten := by
  induction ws with
  | nil => rfl
  | cons w rest ih => simp [publishLoop, try_invokeE, ih]

/-! ### Statistics fold invariant -/

theorem statsFold_spec (l : CallbacksMap) :
    ∀ acc : EventBusStats,
      (l.foldl statsStep acc).total_events =
        acc.total_events + (l.filter fun p => !p.2.isEmpty).length ∧
      (l.foldl statsStep acc).total_callbacks =
        acc.total_callbacks + (l.map fun p => p.2.length).sum ∧
      (∀ p ∈ l, p.2.length ≤
        (l.foldl statsStep acc).max_callbacks_per_event) ∧
      acc.max_callbacks_per_event ≤
        (l.foldl statsStep acc).max_callbacks_per_event ∧
      (((l.foldl statsStep acc).max_callbacks_per_event =
          acc.max_callbacks_per_event ∧
        (l.foldl statsStep acc).most_subscribed_event =
          acc.most_subscribed_event) ∨
       (∃ p ∈ l, ¬p.2.isEmpty ∧
         p.1 = (l.foldl statsStep acc).most_subscribed_event ∧
         p.2.length = (l.foldl statsStep acc).max_callbacks_per_event)) := by
  induction l with
  | nil => intro acc; simp
  | cons p rest ih =>
      intro acc
      obtain ⟨k, ws⟩ := p
      by_cases hemp : ws.isEmpty
      · have hstep : statsStep acc (k, ws) = acc := by
          simp [statsStep, hemp]
        obtain ⟨i1, i2, i3, i4, i5⟩ := ih acc
        have hlen : ws.length = 0 := by
          simpa [List.isEmpty_iff] using hemp
        refine ⟨?_, ?_, ?_, ?_, ?_⟩
        · simpa [hstep, hemp] using i1
        · simpa [hstep, hlen] using i2
        · intro q hq
          rcases List.mem_cons.mp hq with rfl | hq
          · simp [hstep, hlen]
          · simpa [hstep] using i3 q hq
        · simpa [hstep] using i4
        · rcases i5 with h | ⟨q, hq, hq1, hq2, hq3⟩
          · left; simpa [hstep] using h
          · right
            exact ⟨q, List.mem_cons_of_mem _ hq, hq1, by
              simpa [hstep] using hq2, by simpa [hstep] using hq3⟩
      · set acc' := statsStep acc (k, ws) with hacc'
        obtain ⟨i1, i2, i3, i4, i5⟩ := ih acc'
        have hte : acc'.total_events = acc.total_events + 1 := by
          simp [hacc', statsStep, hemp]
        have htc : acc'.total_callbacks =
            acc.total_callbacks + ws.length := by
          simp [hacc', statsStep, hemp]
        have hmx : acc'.max_callbacks_per_event =
            (if ws.length > acc.max_callbacks_per_event then ws.length
             else acc.max_callbacks_per_event) := by
          simp [hacc', statsStep, hemp]
        have hms : acc'.most_subscribed_event =
            (if ws.length > acc.max_callbacks_per_event then k
             else acc.most_subscribed_event) := by
          simp [hacc', statsStep, hemp]
        refine ⟨?_, ?_, ?_, ?_, ?_⟩
        · simp only [List.foldl_cons]
          rw [i1, hte]
          simp [hemp]
          omega
        · simp only [List.foldl_cons]
          rw [i2, htc]
          simp
          omega
        · intro q hq
          rcases List.mem_cons.mp hq with rfl | hq
          · simp only [List.foldl_cons]
            refine le_trans ?_ i4
            rw [hmx]
            split <;> omega
          · simp only [List.foldl_cons]
            exact i3 q hq
        · simp only [List.foldl_cons]
          refine le_trans ?_ i4
          rw [hmx]
          split <;> omega
        · simp only [List.foldl_cons]
          rcases i5 with ⟨h1, h2⟩ | ⟨q, hq, hq1, hq2, hq3⟩
          · by_cases hgt : ws.length > acc.max_callbacks_per_event
            · right
              refine ⟨(k, ws), List.mem_cons_self _ _, hemp, ?_, ?_⟩
              · rw [h2, hms, if_pos hgt]
              · rw [h1, hmx, if_pos hgt]
            · left
              rw [h1, h2, hmx, hms, if_neg hgt, if_neg hgt]
              exact ⟨rfl, rfl⟩
          · right
            exact ⟨q, List.mem_cons_of_mem _ hq, hq1, hq2, hq3⟩

theorem unsubscribe_fst (bus : EventBus) (e : String) (id : Nat) :
    (unsubscribe bus e id).1 = (unsubMap bus.callbacks_map e id).1 := rfl

theorem unsubscribe_snd_map (bus : EventBus) (e : String) (id : Nat) :
    (unsubscribe bus e id).2.callbacks_map =
      (unsubMap bus.callbacks_map e id).2 := rfl

theorem unsubscribe_of_unsubMap {bus : EventBus} {e : String} {id : Nat}
    (h : unsubMap bus.callbacks_map e id = (false, bus.callbacks_map)) :
    unsubscribe bus e id = (false, bus) := by
  unfold unsubscribe
  rw [h]

/-! ### Claims -/

/-- C1 (counterexample).  The claim says `try_invoke` fails
immediately whenever the bundle's argument count differs from the
declared parameter count, the only exception being both counts zero.
On a wrapper with zero declared parameters and a one-element bundle the
counts differ, yet the code invokes the callback (with no arguments)
and returns true. -/
theorem try_invoke_zero_arity_counterexample :
    try_invoke ⟨1, [], quiet⟩ [.vInt 5] = ([(1, [])], true) ∧
    [Val.vInt 5].length ≠ ([] : List Ty).length := ⟨rfl, by decide⟩

/-- C1 (amended).  For a wrapper with a non-empty declared parameter
list, `try_invoke` fails immediately — returning false with no callback
invocation — whenever the bundle's argument count differs from the
declared parameter count; a wrapper with zero declared parameters
always invokes its callback with no arguments, whatever the bundle
holds, and returns true unless the callback throws. -/
theorem try_invoke_arity (w : CallbackWrapper) (b : List Val) :
    (w.declared ≠ [] → b.length ≠ w.declared.length →
      try_invoke w b = ([], false)) ∧
    (w.declared = [] →
      try_invoke w b = ([(w.id, [])], !w.raises [])) := by
  constructor
  · intro h1 h2
    have e1 : ¬(b.map Val.ty = w.declared) := by
      intro h
      exact h2 (by simpa using congrArg List.length h)
    have e2 : ¬(b.map Val.ty = w.declared.map Ty.decay) := by
      intro h
      exact h2 (by simpa using congrArg List.length h)
    have e3 : ¬(b.map Val.ty = w.declared.map map_to_source_type) := by
      intro h
      exact h2 (by simpa using congrArg List.length h)
    simp [try_invoke, try_invoke_body, catchAll, h1, e1, e2, e3,
      try_parameter_conversion]
  · intro h
    cases hr : w.raises [] <;>
      simp [try_invoke, try_invoke_body, catchAll, h, invokeCallback, hr,
        Except.map]

/-- C1 witness for the amended theorem: a two-parameter wrapper
offered a one-element bundle invokes nothing and reports false. -/
theorem try_invoke_arity_witness :
    try_invoke ⟨3, [.tInt, .tInt], quiet⟩ [.vInt 5] = ([], false) :=
  (try_invoke_arity ⟨3, [.tInt, .tInt], quiet⟩ [.vInt 5]).1
    (by decide) (by decide)

/-- C3 (counterexample).  The claim says that for an unknown event
the subscription count is 0, so `publish_if_min_subscribers` with
`min_count = 0` must publish and return true.  The code returns false
for any event without a map entry, `min_count` notwithstanding. -/
theorem publish_if_min_unknown_counterexample :
    publish_if_min_subscribers EventBus.empty "e" 0 [] =
      (false, ⟨[], []⟩) ∧
    getCallbackCount EventBus.empty "e" = 0 := ⟨rfl, rfl⟩

/-- C3 (amended).  `publish_if_min_subscribers` returns true and
performs the full `publish` exactly when the event has a map entry
whose subscription count is at least `min_count`; when the event has no
entry it returns false without publishing, for every `min_count`
(including 0). -/
theorem publish_if_min_subscribers_spec (bus : EventBus) (e : String)
    (m : Nat) (args : List Val) :
    ((publish_if_min_subscribers bus e m args).1 = true ↔
      ∃ ws, findEvent bus.callbacks_map e = some ws ∧ m ≤ ws.length) ∧
    (∀ ws, findEvent bus.callbacks_map e = some ws → m ≤ ws.length →
      publish_if_min_subscribers bus e m args =
        (true, publish bus e args)) ∧
    ((publish_if_min_subscribers bus e m args).1 = false →
      (publish_if_min_subscribers bus e m args).2 = ⟨[], []⟩) := by
  cases hf : findEvent bus.callbacks_map e with
  | none => simp [publish_if_min_subscribers, hf]
  | some ws =>
      have hpm : publish_if_min_subscribers bus e m args =
          (if ws.length < m then (false, ⟨[], []⟩)
           else (true, publish bus e args)) := by
        simp [publish_if_min_subscribers, hf]
      by_cases hm : ws.length < m
      · refine ⟨?_, ?_, ?_⟩
        · rw [hpm, if_pos hm]
          constructor
          · intro h; simp at h
          · rintro ⟨ws', hws', hlen⟩
            injection hws' with h
            subst h
            omega
        · intro ws' hws' hlen
          injection hws' with h
          subst h
          omega
        · intro _
          rw [hpm, if_pos hm]
      · refine ⟨?_, ?_, ?_⟩
        · rw [hpm, if_neg hm]
          exact ⟨fun _ => ⟨ws, rfl, by omega⟩, fun _ => rfl⟩
        · intro ws' hws' hlen
          rw [hpm, if_neg hm]
        · intro hfalse
          rw [hpm, if_neg hm] at hfalse
          simp at hfalse

/-- C3 witness for the amended theorem: one subscriber on
`"greet"` satisfies `min_count = 1`, so the call performs the full
publish and returns true. -/
theorem publish_if_min_subscribers_witness :
    publish_if_min_subscribers busGreet "greet" 1 [.vCStr "World"] =
      (true, publish busGreet "greet" [.vCStr "World"]) :=
  (publish_if_min_subscribers_spec busGreet "greet" 1
    [.vCStr "World"]).2.1 [⟨1, [.constRef .tString], quiet⟩] rfl
    (by decide)

/-- C8 (confirmed).  A subscriber declared with one textual-string
parameter — by value (`std::string`) or by const reference
(`const std::string&`) — subscribed to `"greet"` is, on
`publish("greet", "World")` with a raw-text-literal argument, invoked
exactly once with the owned text value, through the
text-conversion rule (`map_to_source_type` maps the declared string
parameter to `const char*`, and `convert_parameter` builds the owned
string from the literal). -/
theorem publish_string_conversion (s : String) (r : List Val → Bool) :
    (publish (subscribe EventBus.empty "greet" [.constRef .tString] r).2
      "greet" [.vCStr s]).calls = [(1, [.vStr s])] ∧
    (publish (subscribe EventBus.empty "greet" [.tString] r).2
      "greet" [.vCStr s]).calls = [(1, [.vStr s])] :=
  ⟨rfl, rfl⟩

/-- C9 (confirmed).  Dispatch never mutates the registry: `publish`
and `publish_if_min_subscribers` (and every read-only query) leave the
registry state exactly as it was; in the operation semantics only
`subscribe`, `unsubscribe`, `unsubscribeAll` and `clear` produce a new
state. -/
theorem publish_frame (bus : EventBus) (e n c : String)
    (args : List Val) (m : Nat) :
    applyOp bus (.publish e args) = bus ∧
    applyOp bus (.publishIfMin e m args) = bus ∧
    applyOp bus (.isRegistered n) = bus ∧
    applyOp bus (.callbackCount c) = bus ∧
    applyOp bus .allEventNames = bus ∧
    applyOp bus .getStats = bus :=
  ⟨rfl, rfl, rfl, rfl, rfl, rfl⟩

/-- C10 (confirmed).  `try_invoke` is total: when its body throws
(during matching, conversion, or the wrapped callback's execution) the
wrapper-level `catch (...)` yields false with the invocations made so
far, when the body returns a verdict that verdict is passed through,
and as observed by the dispatch loop the call always returns an
ordinary boolean, never an exception. -/
theorem try_invoke_total (w : CallbackWrapper) (b : List Val) :
    ((try_invoke_body w b).2 = .error () →
      try_invoke w b = ((try_invoke_body w b).1, false)) ∧
    (∀ v, (try_invoke_body w b).2 = .ok v →
      try_invoke w b = ((try_invoke_body w b).1, v)) ∧
    (try_invokeE w b).2 = .ok (try_invoke w b).2 := by
  refine ⟨?_, ?_, rfl⟩
  · intro h
    simp [try_invoke, catchAll, h]
  · intro v h
    simp [try_invoke, catchAll, h]

/-- C10 witness: a callback that throws on an exactly-matched
bundle makes the body end in the thrown state, and `try_invoke` turns
that into a false return with the invocation recorded. -/
theorem try_invoke_total_witness :
    try_invoke ⟨5, [.tInt], loud⟩ [.vInt 0] = ([(5, [.vInt 0])], false) :=
  ((try_invoke_total ⟨5, [.tInt], loud⟩ [.vInt 0]).1 rfl).trans rfl

/-- C2 (counterexample).  The claim says a callback exception is
caught at the dispatch boundary and logged with the subscriber's id.
In the code the wrapper's own `catch (...)` swallows the throw first
and `try_invoke` reports false, so the dispatch loop's
`catch (const std::exception&)` handler — the only place the id would
be logged — never fires: here the first subscriber's callback throws
(its body ends in the thrown state) yet the exception log of the
publish stays empty. -/
theorem publish_exception_unlogged_counterexample :
    try_invoke_body ⟨1, [.tInt], loud⟩ [.vInt 7] =
      ([(1, [.vInt 7])], .error ()) ∧
    publish busRaise "e" [.vInt 7] =
      ⟨[(1, [.vInt 7]), (2, [.vInt 7])], []⟩ := ⟨rfl, rfl⟩

/-- C2 (amended).  A subscriber callback that throws during a
publish is caught inside the wrapper's `try_invoke`, which reports
false; no log entry carrying the subscriber's id is ever produced (the
dispatch-level handler is unreachable).  Every subscriber of the event
is still attempted independently, in insertion order, and `publish`
never raises: each wrapper's call is observed by the loop as an
ordinary boolean. -/
theorem publish_exception_containment (bus : EventBus) (e : String)
    (args : List Val) :
    (publish bus e args).log = [] ∧
    (∀ ws, findEvent bus.callbacks_map e = some ws →
      (publish bus e args).calls =
        (ws.map fun w => (try_invoke w args).1).flatten) ∧
    (∀ w : CallbackWrapper,
      (try_invokeE w args).2 = .ok (try_invoke w args).2) := by
  refine ⟨?_, ?_, fun w => rfl⟩
  · cases hf : findEvent bus.callbacks_map e with
    | none => simp [publish, hf]
    | some ws =>
        by_cases hemp : ws.isEmpty
        · simp [publish, hf, hemp]
        · simp [publish, hf, hemp, publishLoop_log]
  · intro ws hf
    by_cases hemp : ws.isEmpty
    · have h : ws = [] := List.isEmpty_iff.mp hemp
      subst h
      simp [publish, hf]
    · simp [publish, hf, hemp, publishLoop_calls]

/-- C2 witness for the amended theorem: on a registry whose first
`"e"` subscriber throws, the publish's call trace is exactly the
concatenation of each wrapper's independent `try_invoke` trace — the
throwing first subscriber does not stop the second. -/
theorem publish_exception_containment_witness :
    (publish busRaise "e" [.vInt 7]).calls =
      (([⟨1, [.tInt], loud⟩, ⟨2, [.tInt], quiet⟩] :
          List CallbackWrapper).map
        fun w => (try_invoke w [.vInt 7]).1).flatten :=
  (publish_exception_containment busRaise "e" [.vInt 7]).2.1 _ rfl

/-- C4 (confirmed).  Over any sequence of API calls on one registry
instance, the ids returned by the `subscribe` calls are strictly
increasing in issuance order and pairwise distinct — an id is never
reused, whatever unsubscriptions or clears happen in between. -/
theorem subscribe_ids_increasing (bus : EventBus) (ops : List Op) :
    (issuedIds bus ops).Pairwise (· < ·) ∧
    (issuedIds bus ops).Nodup := by
  have hp : ∀ (ops : List Op) (bus : EventBus),
      (issuedIds bus ops).Pairwise (· < ·) := by
    intro ops
    induction ops with
    | nil => intro bus; simp [issuedIds]
    | cons op rest ih =>
        intro bus
        rw [issuedIds, List.pairwise_append]
        refine ⟨?_, ih _, ?_⟩
        · cases op <;> simp [opIssued]
        · intro a ha b hb
          cases op with
          | subscribe e d r =>
              simp only [opIssued, subscribe_fst,
                List.mem_singleton] at ha
              subst ha
              have hlow := issuedIds_lower rest _ b hb
              have hnext : (applyOp bus (Op.subscribe e d r)).next_id =
                  bus.next_id + 1 := rfl
              omega
          | unsubscribe e id => simp [opIssued] at ha
          | unsubscribeAll e => simp [opIssued] at ha
          | clear => simp [opIssued] at ha
          | publish e args => simp [opIssued] at ha
          | publishIfMin e m args => simp [opIssued] at ha
          | isRegistered e => simp [opIssued] at ha
          | callbackCount e => simp [opIssued] at ha
          | allEventNames => simp [opIssued] at ha
          | getStats => simp [opIssued] at ha
  exact ⟨hp ops bus, (hp ops bus).imp fun h => Nat.ne_of_lt h⟩

/-- C5 (confirmed).  `getStats` is one full scan: `total_events`
counts the entries with at least one subscription, `total_callbacks`
sums all subscription counts, `max_callbacks_per_event` bounds every
per-event count, and — whenever any event has a subscription —
`most_subscribed_event` names an event achieving that maximum; on the
concrete registry with 3 subscribers on `"x"` and 1 on `"y"` the
snapshot is exactly `(2, 4, 3, "x")`. -/
theorem getStats_spec (bus : EventBus) :
    (getStats bus).total_events =
      (bus.callbacks_map.filter fun p => !p.2.isEmpty).length ∧
    (getStats bus).total_callbacks =
      (bus.callbacks_map.map fun p => p.2.length).sum ∧
    (∀ p ∈ bus.callbacks_map,
      p.2.length ≤ (getStats bus).max_callbacks_per_event) ∧
    ((∃ p ∈ bus.callbacks_map, ¬p.2.isEmpty) →
      ∃ p ∈ bus.callbacks_map, ¬p.2.isEmpty ∧
        p.1 = (getStats bus).most_subscribed_event ∧
        p.2.length = (getStats bus).max_callbacks_per_event) ∧
    getStats busXY = ⟨2, 4, 3, "x"⟩ := by
  obtain ⟨i1, i2, i3, i4, i5⟩ :=
    statsFold_spec bus.callbacks_map ⟨0, 0, 0, ""⟩
  refine ⟨by simpa [getStats] using i1, by simpa [getStats] using i2,
    by simpa [getStats] using i3, ?_, rfl⟩
  rintro ⟨q, hq, hqne⟩
  rcases i5 with ⟨h1, h2⟩ | ⟨p, hp, hp1, hp2, hp3⟩
  · exfalso
    have hub := i3 q hq
    rw [h1] at hub
    have hub' : q.2.length ≤ 0 := hub
    have hql : q.2.length ≠ 0 := by
      simpa [List.isEmpty_iff, List.length_eq_zero] using hqne
    omega
  · exact ⟨p, hp, hp1, by simpa [getStats] using hp2,
      by simpa [getStats] using hp3⟩

/-- C5 witness: on the 3-on-`"x"`, 1-on-`"y"` registry some event
has a subscription, and `most_subscribed_event` indeed names an entry
of the registry achieving the maximum count. -/
theorem getStats_witness :
    ∃ p ∈ busXY.callbacks_map, ¬p.2.isEmpty ∧
      p.1 = (getStats busXY).most_subscribed_event ∧
      p.2.length = (getStats busXY).max_callbacks_per_event :=
  (getStats_spec busXY).2.2.2.1
    ⟨("x", [⟨1, [.tInt], quiet⟩, ⟨2, [.tInt], quiet⟩,
        ⟨3, [.tInt], quiet⟩]),
      List.mem_cons_self _ _, by decide⟩

/-- C6 (confirmed).  On a well-formed registry (as every registry
reached through the API is): when a subscription with the given id is
present under the event, `unsubscribe` returns true and removes exactly
that subscription, preserving the relative order of the rest, leaving
every other event untouched and the id counter unchanged, and an
immediate repeat of the same call returns false with no effect; when
the event or the id is unknown it returns false and leaves the
registry exactly as it was. -/
theorem unsubscribe_spec (bus : EventBus) (hwf : WF bus) (e : String)
    (id : Nat) :
    (∀ ws, findEvent bus.callbacks_map e = some ws → id ∈ idsOf ws →
      ∃ l₁ w l₂, ws = l₁ ++ w :: l₂ ∧ w.id = id ∧
        id ∉ idsOf l₁ ∧ id ∉ idsOf l₂ ∧
        (unsubscribe bus e id).1 = true ∧
        findEvent (unsubscribe bus e id).2.callbacks_map e =
          some (l₁ ++ l₂) ∧
        (∀ e', e' ≠ e →
          findEvent (unsubscribe bus e id).2.callbacks_map e' =
            findEvent bus.callbacks_map e') ∧
        (unsubscribe bus e id).2.next_id = bus.next_id ∧
        unsubscribe (unsubscribe bus e id).2 e id =
          (false, (unsubscribe bus e id).2)) ∧
    (findEvent bus.callbacks_map e = none →
      unsubscribe bus e id = (false, bus)) ∧
    (∀ ws, findEvent bus.callbacks_map e = some ws → id ∉ idsOf ws →
      unsubscribe bus e id = (false, bus)) := by
  refine ⟨?_, ?_, ?_⟩
  · intro ws hf hid
    cases hr : removeFirstId ws id with
    | none => exact absurd hid (removeFirstId_eq_none.mp hr)
    | some ws' =>
        obtain ⟨l₁, w, l₂, hws, hwid, hws', hnotl₁⟩ :=
          removeFirstId_eq_some hr
        obtain ⟨u1, u2, u3, u4⟩ := unsubMap_of_remove_some hf hr
        have hnd : (idsOf ws).Nodup :=
          (findEvent_ids_sublist hf).nodup hwf.2.1
        have hnotl₂ : id ∉ idsOf l₂ := by
          rw [hws, idsOf_append] at hnd
          have h2 := (List.nodup_append.mp hnd).2.1
          have h3 : (w.id :: idsOf l₂).Nodup := by
            simpa [idsOf] using h2
          exact hwid ▸ (List.nodup_cons.mp h3).1
        have hfind' : findEvent (unsubscribe bus e id).2.callbacks_map e =
            some (l₁ ++ l₂) := by
          rw [unsubscribe_snd_map, ← hws']
          exact u2
        refine ⟨l₁, w, l₂, hws, hwid, hnotl₁, hnotl₂, ?_, hfind', ?_,
          rfl, ?_⟩
        · rw [unsubscribe_fst]; exact u1
        · intro e' he'
          rw [unsubscribe_snd_map]
          exact u3 e' he'
        · have hr2 : removeFirstId (l₁ ++ l₂) id = none :=
            removeFirstId_eq_none.mpr (by
              rw [idsOf_append]
              simp only [List.mem_append]
              rintro (h | h)
              · exact hnotl₁ h
              · exact hnotl₂ h)
          exact unsubscribe_of_unsubMap
            (unsubMap_of_remove_none hfind' hr2)
  · intro hf
    exact unsubscribe_of_unsubMap (unsubMap_of_findEvent_none hf id)
  · intro ws hf hid
    exact unsubscribe_of_unsubMap (unsubMap_of_remove_none hf
      (removeFirstId_eq_none.mpr hid))

/-- C6 witness: on the well-formed registry with subscriptions
1,2,3 on `"x"`, unsubscribing id 2 succeeds and the immediate repeat
of the same call returns false with no effect. -/
theorem unsubscribe_spec_witness :
    (unsubscribe busXY "x" 2).1 = true ∧
    unsubscribe (unsubscribe busXY "x" 2).2 "x" 2 =
      (false, (unsubscribe busXY "x" 2).2) := by
  obtain ⟨l₁, w, l₂, -, -, -, -, h5, -, -, -, h9⟩ :=
    (unsubscribe_spec busXY (by decide) "x" 2).1
      [⟨1, [.tInt], quiet⟩, ⟨2, [.tInt], quiet⟩, ⟨3, [.tInt], quiet⟩]
      rfl (by decide)
  exact ⟨h5, h9⟩

/-- C7 (confirmed).  In every registry state reachable through the
API, an entry with zero subscriptions is indistinguishable from an
unregistered event for the read-only queries: `isEventRegistered` is
true exactly when the count is positive, an empty entry counts 0, is
not registered and is absent from the event-name enumeration, and
`getAllEventNames` lists exactly the names with at least one
subscription, without duplicates. -/
theorem empty_entry_unregistered (ops : List Op) (e n : String) :
    (isEventRegistered (runOps EventBus.empty ops) e = true ↔
      0 < getCallbackCount (runOps EventBus.empty ops) e) ∧
    (findEvent (runOps EventBus.empty ops).callbacks_map e = some [] →
      getCallbackCount (runOps EventBus.empty ops) e = 0 ∧
      isEventRegistered (runOps EventBus.empty ops) e = false ∧
      e ∉ getAllEventNames (runOps EventBus.empty ops)) ∧
    (n ∈ getAllEventNames (runOps EventBus.empty ops) ↔
      0 < getCallbackCount (runOps EventBus.empty ops) n) ∧
    (getAllEventNames (runOps EventBus.empty ops)).Nodup := by
  have hwf := WF_reachable ops
  set bus := runOps EventBus.empty ops with hbus
  have hnames : ∀ s : String,
      s ∈ getAllEventNames bus ↔ 0 < getCallbackCount bus s := by
    intro s
    constructor
    · intro hmem
      obtain ⟨p, hpfil, hps⟩ := List.mem_map.mp hmem
      obtain ⟨hpmem, hpne⟩ := List.mem_filter.mp hpfil
      have hfe : findEvent bus.callbacks_map p.1 = some p.2 :=
        findEvent_of_mem_nodup hwf.2.2 (by
          obtain ⟨p1, p2⟩ := p
          exact hpmem)
      rw [← hps]
      simp only [getCallbackCount, hfe]
      simp only [Bool.not_eq_true'] at hpne
      have : p.2 ≠ [] := by
        intro h
        rw [h] at hpne
        simp at hpne
      exact List.length_pos.mpr this
    · intro hpos
      cases hf : findEvent bus.callbacks_map s with
      | none => simp [getCallbackCount, hf] at hpos
      | some ws =>
          simp only [getCallbackCount, hf] at hpos
          have hmem : (s, ws) ∈ bus.callbacks_map := findEvent_mem hf
          have hne : ¬ws.isEmpty := by
            intro h
            rw [List.isEmpty_iff.mp h] at hpos
            simp at hpos
          exact List.mem_map.mpr ⟨(s, ws),
            List.mem_filter.mpr ⟨hmem, by simpa using hne⟩, rfl⟩
  refine ⟨?_, ?_, hnames n, ?_⟩
  · cases hf : findEvent bus.callbacks_map e with
    | none => simp [isEventRegistered, getCallbackCount, hf]
    | some ws =>
        simp [isEventRegistered, getCallbackCount, hf,
          List.isEmpty_iff, List.length_pos]
  · intro hf
    refine ⟨by simp [getCallbackCount, hf], by
      simp [isEventRegistered, hf], ?_⟩
    intro hmem
    have := (hnames e).mp hmem
    rw [getCallbackCount, hf] at this
    simp at this
  · exact ((List.filter_sublist _).map _).nodup hwf.2.2

/-- C7 witness: the call sequence subscribe-then-unsubscribe leaves
an empty-but-present entry for `"x"`, and that entry counts 0, is not
registered, and is not enumerated. -/
theorem empty_entry_unregistered_witness :
    getCallbackCount (runOps EventBus.empty opsEmptied) "x" = 0 ∧
    isEventRegistered (runOps EventBus.empty opsEmptied) "x" = false ∧
    "x" ∉ getAllEventNames (runOps EventBus.empty opsEmptied) :=
  (empty_entry_unregistered opsEmptied "x" "x").2.1 rfl

end eventbus
